import Mathlib

/-!
Verification of the IDE name-matcher bridging layer
(`include/swift/IDE/IDEBridging.h`): the `ResolvedLoc` data model, the
heap-owned `BridgedResolvedLocVector` container with its handle protocol,
and the name-matcher entry point.

The header declares the operations; their bodies live outside the provided
sources, so the behavioural definitions below are modelled from the spec
(each such definition says so in its doc comment).  The C++ heap is made
explicit: a `Heap` is a list of cells addressed by position, a cell holds
`some` vector while allocated and `none` once freed, and a
`BridgedResolvedLocVector` is the address of its cell, exactly as the C++
class wraps a `std::vector<ResolvedLoc> *`.
-/

/-- Opaque source location (`BridgedSourceLoc`): the core only stores and
copies these values, never interprets them. -/
abbrev BridgedSourceLoc := Nat

/-- Opaque half-open character range (`swift::CharSourceRange`): stored and
copied only.  `empty` is the default-constructed empty range. -/
structure CharSourceRange where
  start : Nat
  byteLength : Nat
deriving DecidableEq

/-- The default-constructed empty range. -/
def CharSourceRange.empty : CharSourceRange := ⟨0, 0⟩

/-- Closed enum `LabelRangeType` from IDEBridging.h. -/
inductive LabelRangeType where
  | None
  | CallArg
  | Param
  | NoncollapsibleParam
  | Selector
deriving DecidableEq

/-- Closed enum `ResolvedLocContext` from IDEBridging.h. -/
inductive ResolvedLocContext where
  | Default
  | Selector
  | Comment
  | StringLiteral
deriving DecidableEq

/-- The `ResolvedLoc` record from IDEBridging.h: one resolution result for
one queried location. -/
structure ResolvedLoc where
  range : CharSourceRange
  labelRanges : List CharSourceRange
  firstTrailingLabel : Option Nat
  labelType : LabelRangeType
  isActive : Bool
  context : ResolvedLocContext
deriving DecidableEq

/-- Modelled from the spec: the default constructor `ResolvedLoc()`
(declared in IDEBridging.h, body outside the provided sources) produces the
placeholder value: empty range, empty `labelRanges`, absent
`firstTrailingLabel`, `labelType = None`, `isActive = true`,
`context = Default`. -/
def ResolvedLoc.empty : ResolvedLoc :=
  ⟨CharSourceRange.empty, [], none, LabelRangeType.None, true,
    ResolvedLocContext.Default⟩

/-- The trailing-label bound invariant on a `ResolvedLoc`: if
`firstTrailingLabel` is present it indexes into `labelRanges`. -/
def ResolvedLoc.trailingLabelBound (r : ResolvedLoc) : Prop :=
  ∀ i, r.firstTrailingLabel = some i → i < r.labelRanges.length

instance (r : ResolvedLoc) : Decidable r.trailingLabelBound := by
  unfold ResolvedLoc.trailingLabelBound
  cases r.firstTrailingLabel with
  | none => exact isTrue (by intro i hi; cases hi)
  | some j =>
    cases Nat.decLt j r.labelRanges.length with
    | isFalse hf =>
      exact isFalse (by intro hc; exact hf (hc j rfl))
    | isTrue ht =>
      exact isTrue (by intro i hi; cases hi; exact ht)

/-- Modelled from the spec: the full `ResolvedLoc` constructor (declared in
IDEBridging.h, body outside the provided sources) copies all six fields into
the new value; the only validation mandated is the `firstTrailingLabel`
index bound, on which implementations fail fast, modelled here by returning
`none`. -/
def ResolvedLoc.mkChecked (range : CharSourceRange)
    (labelRanges : List CharSourceRange) (firstTrailingLabel : Option Nat)
    (labelType : LabelRangeType) (isActive : Bool)
    (context : ResolvedLocContext) : Option ResolvedLoc :=
  match firstTrailingLabel with
  | none => some ⟨range, labelRanges, none, labelType, isActive, context⟩
  | some i =>
    if i < labelRanges.length then
      some ⟨range, labelRanges, some i, labelType, isActive, context⟩
    else
      none

/-- The C++ heap, restricted to the cells this layer allocates: cell `p`
holds `some v` while the `std::vector<ResolvedLoc>` at address `p` is live
with contents `v`, and `none` once freed (or never allocated). -/
abbrev Heap := List (Option (List ResolvedLoc))

/-- Dereference address `p`: `none` when the cell is freed or out of range. -/
def Heap.read : Heap → Nat → Option (List ResolvedLoc)
  | [], _ => none
  | c :: _, 0 => c
  | _ :: h, p + 1 => Heap.read h p

/-- Overwrite the cell at address `p` (no-op out of range). -/
def Heap.write : Heap → Nat → Option (List ResolvedLoc) → Heap
  | [], _, _ => []
  | _ :: h, 0, c => c :: h
  | c :: h, p + 1, c' => c :: Heap.write h p c'

/-- Allocate a fresh cell holding `v` and return its address. -/
def Heap.alloc (h : Heap) (v : List ResolvedLoc) : Heap × Nat :=
  (h ++ [some v], h.length)

/-- A handle is valid while its cell is live. -/
def Heap.valid (h : Heap) (p : Nat) : Bool :=
  (Heap.read h p).isSome

/-- The `BridgedResolvedLocVector` class: it wraps a single pointer
(`std::vector<ResolvedLoc> *vector`), here the address of a heap cell. -/
structure BridgedResolvedLocVector where
  vector : Nat
deriving DecidableEq

/-- Modelled from the spec: `getOpaqueValue()` (declared in IDEBridging.h,
body outside the provided sources) exposes the container's identity — the
stored pointer — as a boundary-crossing value without transferring
ownership. -/
def BridgedResolvedLocVector.getOpaqueValue
    (b : BridgedResolvedLocVector) : Nat :=
  b.vector

/-- Modelled from the spec: the constructor `BridgedResolvedLocVector(void
*opaqueValue)` (declared in IDEBridging.h, body outside the provided
sources) reconstructs a container from an opaque value obtained from
`getOpaqueValue`, recovering the same underlying storage without copying. -/
def BridgedResolvedLocVector.fromOpaqueValue
    (p : Nat) : BridgedResolvedLocVector :=
  ⟨p⟩

/-- Modelled from the spec: the constructor
`BridgedResolvedLocVector(const std::vector<ResolvedLoc> &)` (declared in
IDEBridging.h, body outside the provided sources) creates a heap-allocated
vector with the same elements as the source vector — a fresh heap copy,
leaving the source sequence (the cell at `src`) untouched. -/
def BridgedResolvedLocVector.copyConstruct (h : Heap) (src : Nat) :
    Heap × BridgedResolvedLocVector :=
  let a := Heap.alloc h ((Heap.read h src).getD [])
  (a.1, ⟨a.2⟩)

/-- Modelled from the spec: `push_back` (declared in IDEBridging.h, body
outside the provided sources) appends one `ResolvedLoc` to the end of the
owned vector, preserving existing order.  Pushing through a freed handle is
undefined in C++; the model leaves the heap unchanged there, and every
theorem below reaches `push_back` only through a live handle. -/
def BridgedResolvedLocVector.push_back (b : BridgedResolvedLocVector)
    (h : Heap) (loc : ResolvedLoc) : Heap :=
  match Heap.read h b.vector with
  | some v => Heap.write h b.vector (some (v ++ [loc]))
  | none => h

/-- Modelled from the spec: `unbridged()` (declared in IDEBridging.h, body
outside the provided sources) returns the current contents without
transferring ownership; on a released container the access is not valid,
modelled as `none`. -/
def BridgedResolvedLocVector.unbridged (b : BridgedResolvedLocVector)
    (h : Heap) : Option (List ResolvedLoc) :=
  Heap.read h b.vector

/-- Modelled from the spec: `destroy()` (declared in IDEBridging.h, body
outside the provided sources) deletes the heap-allocated memory owned by
this object; the cell becomes freed. -/
def BridgedResolvedLocVector.destroy (b : BridgedResolvedLocVector)
    (h : Heap) : Heap :=
  Heap.write h b.vector none

/-- Modelled from the spec: `BridgedResolvedLocVector_createEmpty`
(declared in IDEBridging.h, body outside the provided sources) returns a
new, empty container fully owned by the caller. -/
def BridgedResolvedLocVector_createEmpty (h : Heap) :
    Heap × BridgedResolvedLocVector :=
  let a := Heap.alloc h []
  (a.1, ⟨a.2⟩)

/-- Append a whole list through `push_back`, one element at a time. -/
def BridgedResolvedLocVector.pushAll (b : BridgedResolvedLocVector)
    (h : Heap) (locs : List ResolvedLoc) : Heap :=
  locs.foldl (fun hh loc => b.push_back hh loc) h

/-- The external name-matching engine, injected as a black box: for a
syntax tree and one query location it yields the matched `ResolvedLoc`, or
`none` when the location does not resolve to any construct. -/
abbrev NameMatcherEngine := Nat → BridgedSourceLoc → Option ResolvedLoc

/-- Resolution of a single query location: the engine's match, or the
placeholder when the location is unresolvable. -/
def resolveOne (engine : NameMatcherEngine) (sourceFilePtr : Nat)
    (loc : BridgedSourceLoc) : ResolvedLoc :=
  (engine sourceFilePtr loc).getD ResolvedLoc.empty

/-- Modelled from the spec: the entry point
`swift_SwiftIDEUtilsBridging_runNameMatcher` (declared in IDEBridging.h,
body outside the provided sources) invokes the external engine on each of
the `N` query locations in input order, boxes the `N` results into a newly
allocated container, and returns that container (whose opaque value is the
returned handle). -/
def swift_SwiftIDEUtilsBridging_runNameMatcher (engine : NameMatcherEngine)
    (h : Heap) (sourceFilePtr : Nat) (locations : List BridgedSourceLoc) :
    Heap × BridgedResolvedLocVector :=
  let a := Heap.alloc h (locations.map (resolveOne engine sourceFilePtr))
  (a.1, ⟨a.2⟩)

/-- Iterator position into a `SourceLocVector`
(`std::vector<BridgedSourceLoc>::const_iterator`): the vector's base
address plus an element index. -/
structure SourceLocVectorIterator where
  base : Nat
  index : Nat
deriving DecidableEq

/-- The inline function `SourceLocVectorIterator_equal` from IDEBridging.h:
`return lhs == rhs;`. -/
def SourceLocVectorIterator_equal (lhs rhs : SourceLocVectorIterator) :
    Bool :=
  lhs == rhs

/-- Reading a live cell means the address is in range. -/
theorem Heap.read_lt_length (h : Heap) (p : Nat) (v : List ResolvedLoc)
    (hr : Heap.read h p = some v) : p < h.length := by
  induction h generalizing p with
  | nil => cases hr
  | cons c t ih =>
    cases p with
    | zero => exact Nat.succ_pos _
    | succ q => exact Nat.succ_lt_succ (ih q hr)

/-- Reading below the old length is unaffected by cells appended behind. -/
theorem Heap.read_append_left (h t : Heap) (p : Nat) (hp : p < h.length) :
    Heap.read (h ++ t) p = Heap.read h p := by
  induction h generalizing p with
  | nil => cases hp
  | cons c tl ih =>
    cases p with
    | zero => rfl
    | succ q => exact ih q (Nat.lt_of_succ_lt_succ hp)

/-- Reading the address returned by an allocation yields the new cell. -/
theorem Heap.read_concat_length (h : Heap) (c : Option (List ResolvedLoc)) :
    Heap.read (h ++ [c]) h.length = c := by
  induction h with
  | nil => rfl
  | cons d t ih => exact ih

/-- Reading an in-range address just written yields the written cell. -/
theorem Heap.read_write_self (h : Heap) (p : Nat)
    (c : Option (List ResolvedLoc)) (hp : p < h.length) :
    Heap.read (Heap.write h p c) p = c := by
  induction h generalizing p with
  | nil => cases hp
  | cons d t ih =>
    cases p with
    | zero => rfl
    | succ q => exact ih q (Nat.lt_of_succ_lt_succ hp)

/-- Freeing an address makes every read of it yield `none`, in range or
not. -/
theorem Heap.read_write_none (h : Heap) (p : Nat) :
    Heap.read (Heap.write h p none) p = none := by
  induction h generalizing p with
  | nil => rfl
  | cons d t ih =>
    cases p with
    | zero => rfl
    | succ q => exact ih q

/-- Writing one address leaves every other address unchanged. -/
theorem Heap.read_write_ne (h : Heap) (p q : Nat)
    (c : Option (List ResolvedLoc)) (hpq : q ≠ p) :
    Heap.read (Heap.write h p c) q = Heap.read h q := by
  induction h generalizing p q with
  | nil => rfl
  | cons d t ih =>
    cases p with
    | zero =>
      cases q with
      | zero => exact absurd rfl hpq
      | succ q1 => rfl
    | succ p1 =>
      cases q with
      | zero => rfl
      | succ q1 =>
        exact ih p1 q1 (fun e => hpq (congrArg Nat.succ e))

/-- Two writes to the same address collapse to the last one. -/
theorem Heap.write_write_self (h : Heap) (p : Nat)
    (c c' : Option (List ResolvedLoc)) :
    Heap.write (Heap.write h p c) p c' = Heap.write h p c' := by
  induction h generalizing p with
  | nil => rfl
  | cons d t ih =>
    cases p with
    | zero => rfl
    | succ q => exact congrArg (d :: ·) (ih q)

/-- Appending a list through repeated `push_back` extends the live cell's
contents on the right, in order. -/
theorem pushAll_read (locs : List ResolvedLoc) (h : Heap)
    (b : BridgedResolvedLocVector) (acc : List ResolvedLoc)
    (hacc : Heap.read h b.vector = some acc) :
    Heap.read (b.pushAll h locs) b.vector = some (acc ++ locs) := by
  induction locs generalizing h acc with
  | nil => simpa [BridgedResolvedLocVector.pushAll] using hacc
  | cons loc rest ih =>
    have hlt := Heap.read_lt_length h b.vector acc hacc
    have hstep : b.push_back h loc =
        Heap.write h b.vector (some (acc ++ [loc])) := by
      unfold BridgedResolvedLocVector.push_back
      rw [hacc]
    have hread : Heap.read (b.push_back h loc) b.vector =
        some (acc ++ [loc]) := by
      rw [hstep]
      exact Heap.read_write_self h b.vector _ hlt
    have htail := ih (b.push_back h loc) (acc ++ [loc]) hread
    simpa [BridgedResolvedLocVector.pushAll, List.append_assoc] using htail

/-- C1: for every engine, heap, syntax-tree handle and query array of `N`
source locations, the container returned by the name-matcher entry point
holds exactly `N` `ResolvedLoc` values, and the value at index `i` is the
resolution of the query location at index `i`. -/
theorem runNameMatcher_index_correspondence (engine : NameMatcherEngine)
    (h : Heap) (sourceFilePtr : Nat) (locations : List BridgedSourceLoc) :
    ∃ results : List ResolvedLoc,
      BridgedResolvedLocVector.unbridged
        (swift_SwiftIDEUtilsBridging_runNameMatcher engine h sourceFilePtr
          locations).2
        (swift_SwiftIDEUtilsBridging_runNameMatcher engine h sourceFilePtr
          locations).1 = some results ∧
      results.length = locations.length ∧
      ∀ i : Nat, results.get? i =
        (locations.get? i).map (resolveOne engine sourceFilePtr) := by
  refine ⟨locations.map (resolveOne engine sourceFilePtr), ?_, ?_, ?_⟩
  · show Heap.read (h ++ [some (locations.map (resolveOne engine
      sourceFilePtr))]) h.length = _
    exact Heap.read_concat_length h _
  · exact List.length_map _ _
  · intro i
    exact List.get?_map _ _ _

/-- C2: after `destroy()` the container and every handle derived from its
opaque value are invalid: `unbridged()` yields no contents through either,
the liveness flag guarding every valid operation is false (so no second
`destroy()` may validly occur), and a repeated `destroy()` through a
derived handle changes nothing — exactly one effective release per
independently-owned container. -/
theorem destroy_single_ownership (h : Heap) (b : BridgedResolvedLocVector) :
    BridgedResolvedLocVector.unbridged b (b.destroy h) = none ∧
    BridgedResolvedLocVector.unbridged
      (BridgedResolvedLocVector.fromOpaqueValue b.getOpaqueValue)
      (b.destroy h) = none ∧
    Heap.valid (b.destroy h) b.vector = false ∧
    BridgedResolvedLocVector.destroy
      (BridgedResolvedLocVector.fromOpaqueValue b.getOpaqueValue)
      (b.destroy h) = b.destroy h := by
  refine ⟨?_, ?_, ?_, ?_⟩
  · exact Heap.read_write_none h b.vector
  · exact Heap.read_write_none h b.vector
  · show (Heap.read (Heap.write h b.vector none) b.vector).isSome = false
    rw [Heap.read_write_none h b.vector]
    rfl
  · exact Heap.write_write_self h b.vector none none

/-- C3: copy-constructing a container from an in-memory sequence, taking
its opaque value, and reconstructing a container from that value reads
back exactly the original sequence: same length, order, and field
values. -/
theorem copyConstruct_roundTrip (h : Heap) (src : Nat)
    (v : List ResolvedLoc) (hsrc : Heap.read h src = some v) :
    BridgedResolvedLocVector.unbridged
      (BridgedResolvedLocVector.fromOpaqueValue
        (BridgedResolvedLocVector.copyConstruct h src).2.getOpaqueValue)
      (BridgedResolvedLocVector.copyConstruct h src).1 = some v := by
  show Heap.read (h ++ [some ((Heap.read h src).getD [])]) h.length = some v
  rw [Heap.read_concat_length, hsrc]
  rfl

/-- Witness for C3 at a one-cell heap holding the placeholder sequence. -/
theorem copyConstruct_roundTrip_witness :
    BridgedResolvedLocVector.unbridged
      (BridgedResolvedLocVector.fromOpaqueValue
        (BridgedResolvedLocVector.copyConstruct [some [ResolvedLoc.empty]]
          0).2.getOpaqueValue)
      (BridgedResolvedLocVector.copyConstruct [some [ResolvedLoc.empty]]
        0).1 = some [ResolvedLoc.empty] :=
  copyConstruct_roundTrip [some [ResolvedLoc.empty]] 0 [ResolvedLoc.empty]
    rfl

/-- C4: every `ResolvedLoc` produced by the validating full constructor
satisfies the trailing-label bound, and so does the placeholder produced by
the default constructor: whenever `firstTrailingLabel` is present it
indexes into `labelRanges`. -/
theorem mkChecked_trailingLabelBound (range : CharSourceRange)
    (labelRanges : List CharSourceRange) (firstTrailingLabel : Option Nat)
    (labelType : LabelRangeType) (isActive : Bool)
    (context : ResolvedLocContext) (r : ResolvedLoc)
    (hmk : ResolvedLoc.mkChecked range labelRanges firstTrailingLabel
      labelType isActive context = some r) :
    r.trailingLabelBound ∧ ResolvedLoc.empty.trailingLabelBound := by
  constructor
  · unfold ResolvedLoc.mkChecked at hmk
    cases firstTrailingLabel with
    | none =>
      cases hmk
      intro i hi
      cases hi
    | some j =>
      by_cases hj : j < labelRanges.length
      · simp only [if_pos hj, Option.some.injEq] at hmk
        cases hmk
        intro i hi
        cases Option.some.inj hi
        exact hj
      · simp only [if_neg hj] at hmk
        cases hmk
  · intro i hi
    cases hi

/-- Witness for C4 at a concrete in-bounds construction. -/
theorem mkChecked_trailingLabelBound_witness :
    (⟨CharSourceRange.empty, [CharSourceRange.empty], some 0,
      LabelRangeType.CallArg, true,
      ResolvedLocContext.Default⟩ : ResolvedLoc).trailingLabelBound ∧
    ResolvedLoc.empty.trailingLabelBound :=
  mkChecked_trailingLabelBound CharSourceRange.empty [CharSourceRange.empty]
    (some 0) LabelRangeType.CallArg true ResolvedLocContext.Default
    ⟨CharSourceRange.empty, [CharSourceRange.empty], some 0,
      LabelRangeType.CallArg, true, ResolvedLocContext.Default⟩ (by decide)

/-- C5: a query location the engine cannot resolve is not an error: the
result sequence stays total over the input (length `N`), and the
corresponding entry is populated with the default placeholder
`ResolvedLoc`. -/
theorem runNameMatcher_unresolvable_placeholder (engine : NameMatcherEngine)
    (h : Heap) (sourceFilePtr : Nat) (locations : List BridgedSourceLoc)
    (i : Nat) (loc : BridgedSourceLoc)
    (hloc : locations.get? i = some loc)
    (hunres : engine sourceFilePtr loc = none) :
    ∃ results : List ResolvedLoc,
      BridgedResolvedLocVector.unbridged
        (swift_SwiftIDEUtilsBridging_runNameMatcher engine h sourceFilePtr
          locations).2
        (swift_SwiftIDEUtilsBridging_runNameMatcher engine h sourceFilePtr
          locations).1 = some results ∧
      results.length = locations.length ∧
      results.get? i = some ResolvedLoc.empty := by
  refine ⟨locations.map (resolveOne engine sourceFilePtr), ?_, ?_, ?_⟩
  · show Heap.read (h ++ [some (locations.map (resolveOne engine
      sourceFilePtr))]) h.length = _
    exact Heap.read_concat_length h _
  · exact List.length_map _ _
  · rw [List.get?_map, hloc]
    show some (resolveOne engine sourceFilePtr loc) = _
    unfold resolveOne
    rw [hunres]
    rfl

/-- Witness for C5: an engine resolving nothing still yields a total,
placeholder-populated result for the one-element query array. -/
theorem runNameMatcher_unresolvable_placeholder_witness :
    ∃ results : List ResolvedLoc,
      BridgedResolvedLocVector.unbridged
        (swift_SwiftIDEUtilsBridging_runNameMatcher (fun _ _ => none) [] 0
          [0]).2
        (swift_SwiftIDEUtilsBridging_runNameMatcher (fun _ _ => none) [] 0
          [0]).1 = some results ∧
      results.length = ([0] : List BridgedSourceLoc).length ∧
      results.get? 0 = some ResolvedLoc.empty :=
  runNameMatcher_unresolvable_placeholder (fun _ _ => none) [] 0 [0] 0 0
    rfl rfl

/-- C6: starting from the empty container returned by `createEmpty` and
appending `k` elements one by one with `push_back`, reading the container
back through `unbridged` yields exactly those `k` elements in append
order, with no reordering or loss. -/
theorem createEmpty_pushAll_order (h : Heap) (locs : List ResolvedLoc) :
    BridgedResolvedLocVector.unbridged
      (BridgedResolvedLocVector_createEmpty h).2
      (BridgedResolvedLocVector.pushAll
        (BridgedResolvedLocVector_createEmpty h).2
        (BridgedResolvedLocVector_createEmpty h).1 locs) = some locs := by
  have h0 : Heap.read (BridgedResolvedLocVector_createEmpty h).1
      (BridgedResolvedLocVector_createEmpty h).2.vector = some [] :=
    Heap.read_concat_length h (some [])
  have htotal := pushAll_read locs (BridgedResolvedLocVector_createEmpty h).1
    (BridgedResolvedLocVector_createEmpty h).2 [] h0
  simpa [BridgedResolvedLocVector.unbridged] using htotal

/-- C7: copy-construction takes a fresh heap copy: the new container's
contents equal the source sequence, and the source cell is unchanged by
the construction, by a subsequent `push_back` on the new container, and by
a subsequent `destroy` of the new container. -/
theorem copyConstruct_frame (h : Heap) (src : Nat) (v : List ResolvedLoc)
    (loc : ResolvedLoc) (hsrc : Heap.read h src = some v) :
    BridgedResolvedLocVector.unbridged
      (BridgedResolvedLocVector.copyConstruct h src).2
      (BridgedResolvedLocVector.copyConstruct h src).1 = some v ∧
    Heap.read (BridgedResolvedLocVector.copyConstruct h src).1 src
      = some v ∧
    Heap.read
      (BridgedResolvedLocVector.push_back
        (BridgedResolvedLocVector.copyConstruct h src).2
        (BridgedResolvedLocVector.copyConstruct h src).1 loc) src
      = some v ∧
    Heap.read
      (BridgedResolvedLocVector.destroy
        (BridgedResolvedLocVector.copyConstruct h src).2
        (BridgedResolvedLocVector.copyConstruct h src).1) src
      = some v := by
  have hlt : src < h.length := Heap.read_lt_length h src v hsrc
  have hne : src ≠ h.length := Nat.ne_of_lt hlt
  have hsrc' : Heap.read (h ++ [some ((Heap.read h src).getD [])]) src
      = some v := by
    rw [Heap.read_append_left h _ src hlt]
    exact hsrc
  refine ⟨?_, hsrc', ?_, ?_⟩
  · show Heap.read (h ++ [some ((Heap.read h src).getD [])]) h.length
      = some v
    rw [Heap.read_concat_length, hsrc]
    rfl
  · show Heap.read (BridgedResolvedLocVector.push_back ⟨h.length⟩
      (h ++ [some ((Heap.read h src).getD [])]) loc) src = some v
    unfold BridgedResolvedLocVector.push_back
    cases hcell : Heap.read (h ++ [some ((Heap.read h src).getD [])])
        h.length with
    | none => exact hsrc'
    | some w =>
      rw [Heap.read_write_ne _ _ _ _ hne]
      exact hsrc'
  · show Heap.read (Heap.write (h ++ [some ((Heap.read h src).getD [])])
      h.length none) src = some v
    rw [Heap.read_write_ne _ _ _ _ hne]
    exact hsrc'

/-- Witness for C7 on a two-cell heap: the source cell at address 0 keeps
its contents through construction, append, and release of the copy. -/
theorem copyConstruct_frame_witness :
    BridgedResolvedLocVector.unbridged
      (BridgedResolvedLocVector.copyConstruct [some [ResolvedLoc.empty]]
        0).2
      (BridgedResolvedLocVector.copyConstruct [some [ResolvedLoc.empty]]
        0).1 = some [ResolvedLoc.empty] ∧
    Heap.read (BridgedResolvedLocVector.copyConstruct
      [some [ResolvedLoc.empty]] 0).1 0 = some [ResolvedLoc.empty] ∧
    Heap.read
      (BridgedResolvedLocVector.push_back
        (BridgedResolvedLocVector.copyConstruct [some [ResolvedLoc.empty]]
          0).2
        (BridgedResolvedLocVector.copyConstruct [some [ResolvedLoc.empty]]
          0).1 ResolvedLoc.empty) 0 = some [ResolvedLoc.empty] ∧
    Heap.read
      (BridgedResolvedLocVector.destroy
        (BridgedResolvedLocVector.copyConstruct [some [ResolvedLoc.empty]]
          0).2
        (BridgedResolvedLocVector.copyConstruct [some [ResolvedLoc.empty]]
          0).1) 0 = some [ResolvedLoc.empty] :=
  copyConstruct_frame [some [ResolvedLoc.empty]] 0 [ResolvedLoc.empty]
    ResolvedLoc.empty rfl

/-- C8: the default `ResolvedLoc` constructor produces exactly the
placeholder value: an empty range, empty `labelRanges`, absent
`firstTrailingLabel`, `labelType = None`, `isActive = true`, and
`context = Default`. -/
theorem resolvedLoc_default_is_placeholder :
    ResolvedLoc.empty.range = CharSourceRange.empty ∧
    ResolvedLoc.empty.labelRanges = [] ∧
    ResolvedLoc.empty.firstTrailingLabel = none ∧
    ResolvedLoc.empty.labelType = LabelRangeType.None ∧
    ResolvedLoc.empty.isActive = true ∧
    ResolvedLoc.empty.context = ResolvedLocContext.Default :=
  ⟨rfl, rfl, rfl, rfl, rfl, rfl⟩

/-- C9: a container reconstructed from `getOpaqueValue` aliases the same
underlying storage: it equals the original pointer-wrapper, a `push_back`
through either side is observable through `unbridged` on the other, and a
`destroy` through either side invalidates both. -/
theorem fromOpaqueValue_aliases_storage (h : Heap)
    (b : BridgedResolvedLocVector) (v : List ResolvedLoc)
    (loc : ResolvedLoc)
    (hv : BridgedResolvedLocVector.unbridged b h = some v) :
    BridgedResolvedLocVector.fromOpaqueValue b.getOpaqueValue = b ∧
    BridgedResolvedLocVector.unbridged
      (BridgedResolvedLocVector.fromOpaqueValue b.getOpaqueValue)
      (BridgedResolvedLocVector.push_back b h loc) = some (v ++ [loc]) ∧
    BridgedResolvedLocVector.unbridged b
      (BridgedResolvedLocVector.push_back
        (BridgedResolvedLocVector.fromOpaqueValue b.getOpaqueValue) h loc)
      = some (v ++ [loc]) ∧
    BridgedResolvedLocVector.unbridged b
      (BridgedResolvedLocVector.destroy
        (BridgedResolvedLocVector.fromOpaqueValue b.getOpaqueValue) h)
      = none ∧
    BridgedResolvedLocVector.unbridged
      (BridgedResolvedLocVector.fromOpaqueValue b.getOpaqueValue)
      (BridgedResolvedLocVector.destroy b h) = none := by
  have hlt : b.vector < h.length := Heap.read_lt_length h b.vector v hv
  have hpush : Heap.read (BridgedResolvedLocVector.push_back b h loc)
      b.vector = some (v ++ [loc]) := by
    unfold BridgedResolvedLocVector.push_back
    rw [show Heap.read h b.vector = some v from hv]
    exact Heap.read_write_self h b.vector _ hlt
  exact ⟨rfl, hpush, hpush, Heap.read_write_none h b.vector,
    Heap.read_write_none h b.vector⟩

/-- Witness for C9 on a one-cell heap holding the empty sequence. -/
theorem fromOpaqueValue_aliases_storage_witness :
    BridgedResolvedLocVector.fromOpaqueValue
      (BridgedResolvedLocVector.getOpaqueValue ⟨0⟩) = ⟨0⟩ ∧
    BridgedResolvedLocVector.unbridged
      (BridgedResolvedLocVector.fromOpaqueValue
        (BridgedResolvedLocVector.getOpaqueValue ⟨0⟩))
      (BridgedResolvedLocVector.push_back ⟨0⟩ [some []] ResolvedLoc.empty)
      = some ([] ++ [ResolvedLoc.empty]) ∧
    BridgedResolvedLocVector.unbridged ⟨0⟩
      (BridgedResolvedLocVector.push_back
        (BridgedResolvedLocVector.fromOpaqueValue
          (BridgedResolvedLocVector.getOpaqueValue ⟨0⟩)) [some []]
        ResolvedLoc.empty) = some ([] ++ [ResolvedLoc.empty]) ∧
    BridgedResolvedLocVector.unbridged ⟨0⟩
      (BridgedResolvedLocVector.destroy
        (BridgedResolvedLocVector.fromOpaqueValue
          (BridgedResolvedLocVector.getOpaqueValue ⟨0⟩)) [some []])
      = none ∧
    BridgedResolvedLocVector.unbridged
      (BridgedResolvedLocVector.fromOpaqueValue
        (BridgedResolvedLocVector.getOpaqueValue ⟨0⟩))
      (BridgedResolvedLocVector.destroy ⟨0⟩ [some []]) = none :=
  fromOpaqueValue_aliases_storage [some []] ⟨0⟩ [] ResolvedLoc.empty rfl

/-- C10: `SourceLocVectorIterator_equal` returns `true` exactly when the
two iterators denote the same position, and the relation it computes is
reflexive and symmetric. -/
theorem sourceLocVectorIterator_equal_correct
    (lhs rhs : SourceLocVectorIterator) :
    (SourceLocVectorIterator_equal lhs rhs = true ↔ lhs = rhs) ∧
    SourceLocVectorIterator_equal lhs lhs = true ∧
    SourceLocVectorIterator_equal lhs rhs =
      SourceLocVectorIterator_equal rhs lhs := by
  refine ⟨?_, ?_, ?_⟩
  · simp [SourceLocVectorIterator_equal]
  · simp [SourceLocVectorIterator_equal]
  · by_cases he : lhs = rhs
    · rw [he]
    · have he' : rhs ≠ lhs := fun e => he e.symm
      simp [SourceLocVectorIterator_equal, he, he']
